import Mathlib

/-!
Verification of the HECO interval-usage importer
(`heco-energy/importer/import_csv_to_influx.py`).

The importer is embedded shallowly: file contents are `List Char`, numeric
values carry exact decimal semantics (`DecVal`, plus the missing value NaN and
the non-finite tokens accepted by the numeric conversion), timestamps are
calendar records stamped with the fixed Hawaii zone, or the missing value NaT.
The pandas/`re`/`strptime` behaviour that the program relies on is modelled at
the granularity the program observes: regex scanning is implemented directly,
`strptime` validity is the calendar-range check it performs, and `read_csv`
(python engine) is modelled as delimiter splitting of lines, where a row with
more fields than the header raises, a shorter row is padded with missing
values, and the default NA tokens become missing values, as `na_filter` does;
`pd.to_datetime` and `pd.to_numeric` pass missing values through as NaT/NaN
without raising.  IEEE-754 rounding, quoting, and the `datetime64` range limit
are idealised away: decimal text denotes its exact rational value.
-/

namespace Heco

/-- ASCII decimal digit, modelling the regex class `\d` on ASCII input. -/
def isDig (c : Char) : Bool := '0' ≤ c && c ≤ '9'

/-- ASCII whitespace, modelling the regex class `\s`. -/
def isSpc (c : Char) : Bool :=
  c = ' ' || c = '\t' || c = '\n' || c = '\r' || c = Char.ofNat 11 || c = Char.ofNat 12

def digitVal (c : Char) : Nat := c.toNat - '0'.toNat

def digitsToNat (ds : List Char) : Nat := ds.foldl (fun a c => a * 10 + digitVal c) 0

/-- Gregorian leap year, as validated by `datetime`. -/
def isLeap (y : Nat) : Bool := y % 4 = 0 && (y % 100 ≠ 0 || y % 400 = 0)

def daysInMonth (y m : Nat) : Nat :=
  if m = 2 then (if isLeap y then 29 else 28)
  else if m = 4 || m = 6 || m = 9 || m = 11 then 30
  else 31

/-- The raw fields lexed from a timestamp occurrence
(`month/day/year hour12:minute:second AM|PM`). -/
structure TsFields where
  month : Nat
  day : Nat
  year : Nat
  h12 : Nat
  minute : Nat
  second : Nat
  pm : Bool
  deriving DecidableEq, Repr

/-- 12-hour clock to 24-hour clock, as `strptime` does for `%I`/`%p`. -/
def hour24 (h12 : Nat) (pm : Bool) : Nat :=
  if pm then (if h12 = 12 then 12 else h12 + 12) else (if h12 = 12 then 0 else h12)

/-- A naive calendar timestamp (what `datetime.strptime` constructs). -/
structure DateTime where
  year : Nat
  month : Nat
  day : Nat
  hour : Nat
  minute : Nat
  second : Nat
  deriving DecidableEq, Repr

/-- The fixed civil zone `tz.gettz("Pacific/Honolulu")` (module constant `HST`). -/
def HST : String := "Pacific/Honolulu"

/-- A timestamp carrying its zone, the result of `replace(tzinfo=HST)` /
`tz_localize(HST)`. -/
structure ZonedDateTime where
  dt : DateTime
  zone : String
  deriving DecidableEq, Repr

/-- Range validity of lexed timestamp fields: exactly the inputs on which
`datetime.strptime(s, "%m/%d/%Y %I:%M:%S %p")` succeeds, for `s` drawn from the
digit-grammar lexed by `lexTS` (month and hour `\d{1,2}`, minute and second
`\d{2}`, year `\d{4}`).  `%I` admits 1-12, `%M` 00-59, `%S` up to 61 but the
`datetime` constructor rejects 60-61, `%d` is checked against the real
calendar, and year 0 is out of range. -/
def validFields (f : TsFields) : Bool :=
  1 ≤ f.month && f.month ≤ 12 && 1 ≤ f.day && f.day ≤ daysInMonth f.year f.month &&
  1 ≤ f.h12 && f.h12 ≤ 12 && f.minute ≤ 59 && f.second ≤ 59 && 1 ≤ f.year

/-- `datetime.strptime` on lexed fields: validate ranges, build the naive
timestamp with the 24-hour clock. -/
def strptimeFields (f : TsFields) : Option DateTime :=
  if validFields f then
    some ⟨f.year, f.month, f.day, hour24 f.h12 f.pm, f.minute, f.second⟩
  else none

/-- Lex exactly `n` digits, most significant first. -/
def lexNDigitsAux : Nat → Nat → List Char → Option (Nat × List Char)
  | 0, acc, cs => some (acc, cs)
  | _ + 1, _, [] => none
  | n + 1, acc, c :: cs =>
    if isDig c then lexNDigitsAux n (acc * 10 + digitVal c) cs else none

def lexNDigits (n : Nat) (cs : List Char) : Option (Nat × List Char) :=
  lexNDigitsAux n 0 cs

/-- Lex `\d{1,2}` immediately followed by the literal `sep`, consuming the
separator.  Greedy with backtracking, as the regex engine behaves: two digits
are taken only when the third character is the separator. -/
def lexD12Sep (sep : Char) : List Char → Option (Nat × List Char)
  | a :: b :: c :: rest =>
    if isDig a && isDig b && c = sep then some (digitVal a * 10 + digitVal b, rest)
    else if isDig a && b = sep then some (digitVal a, c :: rest)
    else none
  | [a, b] => if isDig a && b = sep then some (digitVal a, []) else none
  | _ => none

/-- Lex `\s+` (greedy; the following token never starts with whitespace). -/
def lexSpaces1 : List Char → Option (List Char)
  | c :: cs => if isSpc c then some (cs.dropWhile isSpc) else none
  | [] => none

/-- Lex `AM|PM`, returning `true` for PM.  `ci` additionally accepts lower
case, as the `%p` directive of `strptime` does (the regex `DT_RE` is case sensitive). -/
def lexAmPm (ci : Bool) : List Char → Option (Bool × List Char)
  | a :: m :: rest =>
    if (a = 'A' || (ci && a = 'a')) && (m = 'M' || (ci && m = 'm')) then some (false, rest)
    else if (a = 'P' || (ci && a = 'p')) && (m = 'M' || (ci && m = 'm')) then some (true, rest)
    else none
  | _ => none

/-- Lex one occurrence of the timestamp grammar
`\d{1,2}/\d{1,2}/\d{4}\s+\d{1,2}:\d{2}:\d{2}\s+(AM|PM)` (the module constant
`DT_RE`) at the head of the input, returning the lexed fields and the rest. -/
def lexTS (ci : Bool) (cs0 : List Char) : Option (TsFields × List Char) := do
  let (mo, cs1) ← lexD12Sep '/' cs0
  let (d, cs2) ← lexD12Sep '/' cs1
  let (y, cs3) ← lexNDigits 4 cs2
  let cs4 ← lexSpaces1 cs3
  let (h, cs5) ← lexD12Sep ':' cs4
  let (mi, cs6) ← lexNDigits 2 cs5
  match cs6 with
  | ':' :: cs7 => do
    let (s, cs8) ← lexNDigits 2 cs7
    let cs9 ← lexSpaces1 cs8
    let (pm, cs10) ← lexAmPm ci cs9
    some (⟨mo, d, y, h, mi, s, pm⟩, cs10)
  | _ => none

/-- Find the leftmost `DT_RE` match: the text before the match, the lexed
fields, and the text after the match. -/
def findNext : List Char → Option (List Char × TsFields × List Char)
  | [] => none
  | c :: cs =>
    match lexTS false (c :: cs) with
    | some (f, rest) => some ([], f, rest)
    | none => (findNext cs).map (fun p => (c :: p.1, p.2.1, p.2.2))

/-- Continue the non-overlapping left-to-right scan (`DT_RE.finditer`): given a
pending match `f` whose trailing text is `cs`, close its span at the start of
the next match (or at end of text) and continue. -/
def scanCont : Nat → TsFields → List Char → List (TsFields × List Char)
  | 0, f, cs => [(f, cs)]
  | fuel + 1, f, cs =>
    match findNext cs with
    | none => [(f, cs)]
    | some (p, f2, rest) => (f, p) :: scanCont fuel f2 rest

/-- All `DT_RE` matches of the text, paired with the text strictly between each
match and the next (or the end of text for the last match) — exactly the
`dts[i].end() .. dts[i+1].start()` spans the recovery loop computes. -/
def parseMatches (cs : List Char) : List (TsFields × List Char) :=
  match findNext cs with
  | none => []
  | some (_, f, rest) => scanCont rest.length f rest

/-- An exact decimal value `mant / 10 ^ scale`: the number denoted by a
decimal literal.  Both numeric conversions of the importer turn a literal into
its digits, so this representation is exact where IEEE-754 would round. -/
structure DecVal where
  mant : Int
  scale : Nat
  deriving DecidableEq, Repr

def DecVal.neg (v : DecVal) : DecVal := ⟨-v.mant, v.scale⟩

/-- Values as the numeric conversions of the importer produce them: exact decimal
semantics for numeral text, plus the non-finite tokens `pandas.to_numeric`
accepts. -/
inductive PyFloat where
  | finite (v : DecVal)
  | inf
  | neginf
  | nan
  deriving DecidableEq, Repr

/-- A pandas timestamp value: a concrete zoned time, or the missing value NaT
that `pd.to_datetime` passes through for NA cells (and `tz_localize` leaves
untouched). -/
inductive PyTimestamp where
  | time (t : ZonedDateTime)
  | naT
  deriving DecidableEq, Repr

/-- One extracted (timestamp, value) row. -/
structure Sample where
  ts : PyTimestamp
  kwh : PyFloat
  deriving DecidableEq, Repr

/-- The errors the importer can raise per file. -/
inductive PErr where
  | emptyData
  | parserError (expected saw : Nat)
  | schemaMismatch (cols : List (List Char))
  | dupLabel
  | timestampFormat
  | valueFormat
  | readFailed
  | sinkErr
  deriving DecidableEq, Repr

/-- The decimal value with integer digits `ip`, fraction digits worth `fp`,
and `k` fraction places. -/
def decOf (ip fp k : Nat) : DecVal := ⟨(ip * 10 ^ k + fp : Nat), k⟩

/-- Lex `\d+(?:\.\d+)?` at the head of the input: greedy digits, and a
fractional part only when a digit follows the dot. -/
def lexUnsignedNum (cs : List Char) : Option (DecVal × List Char) :=
  let ds := cs.takeWhile isDig
  if ds.isEmpty then none
  else
    let rest := cs.dropWhile isDig
    match rest with
    | '.' :: rest2 =>
      let fs := rest2.takeWhile isDig
      if fs.isEmpty then some (decOf (digitsToNat ds) 0 0, rest)
      else some (decOf (digitsToNat ds) (digitsToNat fs) fs.length, rest2.dropWhile isDig)
    | _ => some (decOf (digitsToNat ds) 0 0, rest)

/-- Lex `[-+]?\d+(?:\.\d+)?` (the module constant `NUM_RE`) at the head of the
input. -/
def lexNum : List Char → Option (DecVal × List Char)
  | '+' :: cs => lexUnsignedNum cs
  | '-' :: cs => (lexUnsignedNum cs).map (fun p => (p.1.neg, p.2))
  | cs => lexUnsignedNum cs

/-- `NUM_RE.search`: the value of the leftmost number in the text.
`float` of a plain decimal numeral is its exact value in this model. -/
def numSearch : List Char → Option DecVal
  | [] => none
  | c :: cs =>
    match lexNum (c :: cs) with
    | some (q, _) => some q
    | none => numSearch cs

/-- `str.strip()`: drop whitespace from both ends. -/
def pyStrip (cs : List Char) : List Char :=
  ((cs.dropWhile isSpc).reverse.dropWhile isSpc).reverse

def replaceChar (a b : Char) (cs : List Char) : List Char :=
  cs.map (fun c => if c = a then b else c)

/-- Does `pat` occur at the head of `cs`? -/
def headIs : List Char → List Char → Bool
  | [], _ => true
  | _ :: _, [] => false
  | p :: ps, c :: cs => p = c && headIs ps cs

/-- `str.replace` for a nonempty pattern: leftmost, non-overlapping. -/
def pyReplaceAux (pat rep : List Char) : Nat → List Char → List Char
  | 0, cs => cs
  | fuel + 1, cs =>
    if headIs pat cs then rep ++ pyReplaceAux pat rep fuel (cs.drop pat.length)
    else
      match cs with
      | [] => []
      | c :: cs2 => c :: pyReplaceAux pat rep fuel cs2

def pyReplace (pat rep cs : List Char) : List Char := pyReplaceAux pat rep cs.length cs

/-- The cleaning pass of `parse_collapsed_text` (lines 39-40): line breaks to
spaces, then the fused label fragments `StartkWh` and `Start kWh` to spaces. -/
def cleanText (text : List Char) : List Char :=
  pyReplace "Start kWh".toList " ".toList
    (pyReplace "StartkWh".toList " ".toList
      (replaceChar '\n' ' ' (replaceChar '\r' ' ' text)))

/-- The per-match loop of `parse_collapsed_text` (lines 45-61): for each match,
search the stripped span for the first number; with no number the match is
skipped; otherwise `strptime` the matched timestamp (raising on out-of-range
fields) and emit the row. -/
def collapsedRows : List (TsFields × List Char) → Except PErr (List Sample)
  | [] => .ok []
  | (f, span) :: rest =>
    match numSearch (pyStrip span) with
    | none => collapsedRows rest
    | some q =>
      match strptimeFields f with
      | none => .error .timestampFormat
      | some dt =>
        match collapsedRows rest with
        | .error e => .error e
        | .ok tl => .ok (⟨.time ⟨dt, HST⟩, .finite q⟩ :: tl)

/-- `parse_collapsed_text` (lines 38-63): clean, scan for timestamp matches,
associate each with the first following number. -/
def parse_collapsed_text (text : List Char) : Except PErr (List Sample) :=
  collapsedRows (parseMatches (cleanText text))

/-- Drop one trailing carriage return (universal-newline reading). -/
def stripCR (l : List Char) : List Char :=
  if l.getLast? = some '\r' then l.dropLast else l

def splitLines (cs : List Char) : List (List Char) :=
  (cs.splitOn '\n').map stripCR

/-- A data cell after reading: `none` is a missing value (NaN). -/
abbrev Cell := Option (List Char)

/-- The default NA tokens (`STR_NA_VALUES`) that `pandas.read_csv` converts to
missing values when `na_filter` is on, as it is by default. -/
def naTokens : List (List Char) :=
  ["", "#N/A", "#N/A N/A", "#NA", "-1.#IND", "-1.#QNAN", "-NaN", "-nan",
   "1.#IND", "1.#QNAN", "<NA>", "N/A", "NA", "NULL", "NaN", "None", "n/a",
   "nan", "null"].map String.toList

/-- NA conversion of one field. -/
def naFilter (cell : List Char) : Cell :=
  if cell ∈ naTokens then none else some cell

/-- A delimited table: header row plus data rows of NA-filtered cells. -/
structure Table where
  header : List (List Char)
  rows : List (List Cell)
  deriving DecidableEq, Repr

/-- Model of `pandas.read_csv(path, sep=sep, engine="python")` at the fidelity
the importer observes: lines split on the single-character delimiter, blank
lines skipped, the first line the header; a file with no lines raises
`EmptyDataError`; a data row with more fields than the header raises
`ParserError` ("Expected n fields, saw m"); a row with fewer fields is padded
with missing values; each field is NA-filtered (empty fields and the default
NA tokens become missing values).  Quoting is not modelled. -/
def read_csv (content : List Char) (sep : Char) : Except PErr Table :=
  let ls := (splitLines content).filter (fun l => !l.isEmpty)
  match ls with
  | [] => .error .emptyData
  | h :: rest =>
    let header := h.splitOn sep
    let rawRows := rest.map (fun l => l.splitOn sep)
    match rawRows.find? (fun r => header.length < r.length) with
    | some r => .error (.parserError header.length r.length)
    | none =>
      .ok ⟨header, rawRows.map (fun r =>
        r.map naFilter ++ List.replicate (header.length - r.length) none)⟩

/-- Header normalisation (line 88): `str(c).strip().lower()`. -/
def normName (cell : List Char) : List Char := (pyStrip cell).map Char.toLower

def startName : List Char := "start".toList
def kwhName : List Char := "kwh".toList

def countOcc (x : List Char) (l : List (List Char)) : Nat :=
  (l.filter (fun y => y == x)).length

/-- The normalised column names of a table (line 88). -/
def normCols (t : Table) : List (List Char) := t.header.map normName

/-- Index of the column with the given normalised name. -/
def colIdxOf (t : Table) (name : List Char) : Nat :=
  (normCols t).findIdx (fun y => y == name)

/-- The cells of that column, row by row. -/
def colCells (t : Table) (name : List Char) : List Cell :=
  t.rows.map (fun r => r.getD (colIdxOf t name) none)

/-- Column extraction `df[name]`: the unique column with that normalised name.
When the normalised name is duplicated, `df[name]` yields a DataFrame and the
subsequent `pd.to_datetime`/`pd.to_numeric` call raises; that failure is the
`dupLabel` error here. -/
def getCol (t : Table) (name : List Char) : Except PErr (List Cell) :=
  if countOcc name (normCols t) = 1 then .ok (colCells t name)
  else .error .dupLabel

/-- One start-time cell through
`pd.to_datetime(…, format="%m/%d/%Y %I:%M:%S %p", errors="raise")` followed by
`tz_localize(HST)`: a missing value passes through as NaT without raising; a
present cell must be entirely consumed by the timestamp grammar (AM/PM
case-insensitively, as `%p` matches) with fields in calendar range, and is
stamped with the fixed zone. -/
def parseTsCell (cell : Cell) : Except PErr PyTimestamp :=
  match cell with
  | none => .ok .naT
  | some text =>
    match lexTS true text with
    | some (f, []) =>
      match strptimeFields f with
      | some dt => .ok (.time ⟨dt, HST⟩)
      | none => .error .timestampFormat
    | _ => .error .timestampFormat

/-- Does the lower-case pattern match the head of `cs` case-insensitively? -/
def headIsCI : List Char → List Char → Bool
  | [], _ => true
  | _ :: _, [] => false
  | p :: ps, c :: cs => p = Char.toLower c && headIsCI ps cs

/-- Lex the mantissa of a float literal: `digits[.digits]` or `.digits` or
`digits.`. -/
def lexMantissa (cs : List Char) : Option (DecVal × List Char) :=
  let ds := cs.takeWhile isDig
  let rest := cs.dropWhile isDig
  match ds, rest with
  | [], '.' :: rest2 =>
    let fs := rest2.takeWhile isDig
    if fs.isEmpty then none
    else some (decOf 0 (digitsToNat fs) fs.length, rest2.dropWhile isDig)
  | [], _ => none
  | _, '.' :: rest2 =>
    let fs := rest2.takeWhile isDig
    some (decOf (digitsToNat ds) (digitsToNat fs) fs.length, rest2.dropWhile isDig)
  | _, _ => some (decOf (digitsToNat ds) 0 0, rest)

/-- Apply a power-of-ten exponent to an exact decimal value. -/
def DecVal.mulExp (v : DecVal) (eneg : Bool) (e : Nat) : DecVal :=
  if eneg then ⟨v.mant, v.scale + e⟩ else ⟨v.mant * 10 ^ e, v.scale⟩

/-- Apply an optional exponent part `(e|E)[sign]digits`. -/
def applyExp (q : DecVal) : List Char → Option (DecVal × List Char)
  | [] => some (q, [])
  | c :: rest =>
    if c = 'e' || c = 'E' then
      let p : Bool × List Char :=
        match rest with
        | '+' :: r => (false, r)
        | '-' :: r => (true, r)
        | r => (false, r)
      let ds := p.2.takeWhile isDig
      if ds.isEmpty then none
      else some (q.mulExp p.1 (digitsToNat ds), p.2.dropWhile isDig)
    else some (q, c :: rest)

def lexFloatNum (cs : List Char) : Option (DecVal × List Char) :=
  match lexMantissa cs with
  | none => none
  | some (q, rest) => applyExp q rest

/-- A present value text through the numeric conversion of
`pd.to_numeric(…, errors="raise")`: surrounding whitespace stripped, then an
optional sign and either one of the special tokens `inf`/`infinity`/`nan`
(case-insensitive, as `float` accepts) or a decimal float literal, which
denotes its exact rational value in this model. -/
def parseNumText (text : List Char) : Except PErr PyFloat :=
  let s := pyStrip text
  let p : Bool × List Char :=
    match s with
    | '+' :: r => (false, r)
    | '-' :: r => (true, r)
    | r => (false, r)
  if headIsCI "infinity".toList p.2 && p.2.length = 8 then
    .ok (if p.1 then .neginf else .inf)
  else if headIsCI "inf".toList p.2 && p.2.length = 3 then
    .ok (if p.1 then .neginf else .inf)
  else if headIsCI "nan".toList p.2 && p.2.length = 3 then .ok .nan
  else
    match lexFloatNum p.2 with
    | some (q, []) => .ok (.finite (if p.1 then q.neg else q))
    | _ => .error .valueFormat

/-- One value cell through `pd.to_numeric(…, errors="raise")`: a missing
value passes through as NaN without raising; a present cell goes through the
numeric conversion. -/
def parseNumCell (cell : Cell) : Except PErr PyFloat :=
  match cell with
  | none => .ok .nan
  | some text => parseNumText text

/-- Evaluate a parser on every cell of a column, failing at the first bad cell
(as the column-wise `pd.to_datetime`/`pd.to_numeric` calls do). -/
def traverseCells {β α : Type} (f : β → Except PErr α) :
    List β → Except PErr (List α)
  | [] => .ok []
  | c :: cs =>
    match f c with
    | .error e => .error e
    | .ok x =>
      match traverseCells f cs with
      | .error e => .error e
      | .ok xs => .ok (x :: xs)

/-- The delimiter loop of `parse_start_kwh_csv` (lines 74-82): `df` holds the
result of the last attempt (`None` after an attempt that raised), `last_err` the
last raised error; the loop breaks at the first attempt yielding at least two
columns. -/
def delimLoopAux (content : List Char) :
    List Char → Option Table → Option PErr → Option Table × Option PErr
  | [], df, lastErr => (df, lastErr)
  | sep :: seps, _, lastErr =>
    match read_csv content sep with
    | .ok t =>
      if 2 ≤ t.header.length then (some t, lastErr)
      else delimLoopAux content seps (some t) lastErr
    | .error e => delimLoopAux content seps none (some e)

/-- Delimiter detection over the fixed priority order comma, tab, semicolon. -/
def detectDelim (content : List Char) : Option Table × Option PErr :=
  delimLoopAux content [',', '\t', ';'] none none

/-- `parse_start_kwh_csv` (lines 68-105): delimiter loop (raising the last
error when no attempt left a table), header normalisation, schema check naming
the columns found, column-wise timestamp parse localised to `HST`, column-wise
numeric parse, rows zipped in row order. -/
def parse_start_kwh_csv (content : List Char) : Except PErr (List Sample) :=
  match detectDelim content with
  | (none, lastErr) => .error (lastErr.getD .readFailed)
  | (some t, _) =>
    if startName ∈ normCols t ∧ kwhName ∈ normCols t then
      match getCol t startName with
      | .error e => .error e
      | .ok startCells =>
        match traverseCells parseTsCell startCells with
        | .error e => .error e
        | .ok dts =>
          match getCol t kwhName with
          | .error e => .error e
          | .ok kwhCells =>
            match traverseCells parseNumCell kwhCells with
            | .error e => .error e
            | .ok vals => .ok ((dts.zip vals).map (fun p => ⟨p.1, p.2⟩))
    else .error (.schemaMismatch (normCols t))

/-- `parse_file` (lines 107-121): strict parse first; on any strict failure run
the recovery parser on the same raw content; an empty recovery batch re-raises
the original strict error, a nonempty one supersedes it; an exception from the
recovery parser itself propagates. -/
def parse_file (content : List Char) : Except PErr (List Sample) :=
  match parse_start_kwh_csv content with
  | .ok rows => .ok rows
  | .error e =>
    match parse_collapsed_text content with
    | .error e2 => .error e2
    | .ok [] => .error e
    | .ok rows => .ok rows

def MEASUREMENT : String := "heco_interval"
def TAG_SOURCE : String := "heco"

/-- A point handed to the sink, tagged and timed as lines 133-141 build it. -/
structure Point where
  measurement : String
  tags : List (String × String)
  fields : List (String × PyFloat)
  time : PyTimestamp
  deriving DecidableEq, Repr

def mkPoint (s : Sample) : Point :=
  ⟨MEASUREMENT, [("source", TAG_SOURCE)], [("kwh", s.kwh)], s.ts⟩

/-- `write_to_influx` (lines 126-145) over an abstract sink: an empty batch
returns `0` without touching the sink; otherwise one batched write of all
points, reporting the row count. -/
def write_to_influx (sink : List Point → Except PErr Unit) (rows : List Sample) :
    Except PErr Nat :=
  if rows.isEmpty then .ok 0
  else
    match sink (rows.map mkPoint) with
    | .ok _ => .ok rows.length
    | .error e => .error e

/-- Where one file ends up after the per-file body of `main` (lines 169-183). -/
inductive Disposition where
  | toProcessed (count : Nat)
  | toFailed
  | leftInPlace
  deriving DecidableEq, Repr

/-- The per-file body of `main` (lines 169-183): parse, write, move to
`processed`; any exception — from the parse, the write, or the move to
`processed` itself — lands in the handler, which best-effort moves the file to
`failed` and leaves it in place when that move also fails.  `mvP`/`mvF` say
whether the respective `shutil.move` succeeds. -/
def processOne (sink : List Point → Except PErr Unit) (mvP mvF : Bool)
    (content : List Char) : Disposition :=
  match parse_file content with
  | .error _ => if mvF then .toFailed else .leftInPlace
  | .ok rows =>
    match write_to_influx sink rows with
    | .error _ => if mvF then .toFailed else .leftInPlace
    | .ok n => if mvP then .toProcessed n else if mvF then .toFailed else .leftInPlace

/-- A sink that either accepts every batch or rejects every batch. -/
def sinkOf (ok : Bool) : List Point → Except PErr Unit :=
  fun _ => if ok then .ok () else .error .sinkErr

/-- A directory entry: filename, the unique identity of the dropped file, and
its content. -/
abbrev Entry := String × Nat × List Char

/-- The three directories of the pipeline. -/
structure FsState where
  incoming : List Entry
  processed : List Entry
  failed : List Entry
  deriving DecidableEq, Repr

def lookupN (n : String) : List Entry → Option (Nat × List Char)
  | [] => none
  | (m, v) :: l => if m = n then some v else lookupN n l

/-- Remove every entry with the given name. -/
def removeN (n : String) (l : List Entry) : List Entry :=
  l.filter (fun e => e.1 != n)

/-- `shutil.move` target semantics: an existing entry of the same name is
silently overwritten. -/
def insertOv (n : String) (v : Nat × List Char) (l : List Entry) : List Entry :=
  (n, v) :: removeN n l

/-- Events acting on the directories: an external producer dropping a file
into `incoming`, or the loop body handling one enumerated file (with the sink
and the two possible moves resolved by the given oracles). -/
inductive Ev where
  | drop (name : String) (id : Nat) (content : List Char)
  | sweepFile (name : String) (sinkOk mvP mvF : Bool)
  deriving DecidableEq, Repr

def step (s : FsState) : Ev → FsState
  | .drop n id c => { s with incoming := insertOv n (id, c) s.incoming }
  | .sweepFile n sinkOk mvP mvF =>
    match lookupN n s.incoming with
    | none => s
    | some (id, c) =>
      match processOne (sinkOf sinkOk) mvP mvF c with
      | .toProcessed _ =>
        { incoming := removeN n s.incoming,
          processed := insertOv n (id, c) s.processed, failed := s.failed }
      | .toFailed =>
        { incoming := removeN n s.incoming, processed := s.processed,
          failed := insertOv n (id, c) s.failed }
      | .leftInPlace => s

def initState : FsState := ⟨[], [], []⟩

def run (evs : List Ev) : FsState := evs.foldl step initState

instance exceptDecEq {ε α : Type} [DecidableEq ε] [DecidableEq α] :
    DecidableEq (Except ε α) := fun x y =>
  match x, y with
  | .ok a, .ok b => if h : a = b then .isTrue (by rw [h]) else .isFalse (by simp [h])
  | .error e, .error f => if h : e = f then .isTrue (by rw [h]) else .isFalse (by simp [h])
  | .ok _, .error _ => .isFalse (by simp)
  | .error _, .ok _ => .isFalse (by simp)

/-- Calendar-range validity of a naive timestamp, as guaranteed by a
successful `strptime` of the fixed format. -/
def ValidDT (d : DateTime) : Prop :=
  1 ≤ d.month ∧ d.month ≤ 12 ∧ 1 ≤ d.day ∧ d.day ≤ daysInMonth d.year d.month ∧
  d.hour ≤ 23 ∧ d.minute ≤ 59 ∧ d.second ≤ 59 ∧ 1 ≤ d.year

instance (d : DateTime) : Decidable (ValidDT d) := by unfold ValidDT; infer_instance

/-- Does this delimiter read to a table of at least two columns? -/
def goodSep (content : List Char) (sep : Char) : Bool :=
  match read_csv content sep with
  | .ok t => decide (2 ≤ t.header.length)
  | .error _ => false

/-- The recovery result described declaratively: one Sample per timestamp
match whose span holds a number, in scan order, valued at the first number of
the span. -/
def recoveredSamples (text : List Char) : List Sample :=
  (parseMatches (cleanText text)).filterMap (fun fs =>
    (numSearch (pyStrip fs.2)).bind (fun q =>
      (strptimeFields fs.1).map (fun dt => ⟨.time ⟨dt, HST⟩, .finite q⟩)))

/-- Parse and sink write both succeed for this file. -/
def PipeSuccess (sink : List Point → Except PErr Unit) (content : List Char) : Prop :=
  ∃ rows n, parse_file content = .ok rows ∧ write_to_influx sink rows = .ok n

def hasId (l : List Entry) (id : Nat) : Bool := l.any (fun e => e.2.1 == id)

/-- The (filename, identity) pairs of the files dropped by a trace. -/
def dropPairs : List Ev → List (String × Nat)
  | [] => []
  | .drop n id _ :: evs => (n, id) :: dropPairs evs
  | .sweepFile _ _ _ _ :: evs => dropPairs evs

def entryPairs (l : List Entry) : List (String × Nat) := l.map (fun e => (e.1, e.2.1))

/-- All (filename, identity) pairs across the three directories. -/
def statePairs (s : FsState) : List (String × Nat) :=
  entryPairs s.incoming ++ entryPairs s.processed ++ entryPairs s.failed

/-- Scenario A of the spec: a well-formed strict CSV. -/
def scenarioA : List Char :=
  "Start,kWh\n1/1/2025 12:00:00 AM,0.52\n1/1/2025 12:15:00 AM,0.48".toList

/-- Scenario B of the spec: the same data with delimiters stripped. -/
def scenarioB : List Char :=
  "StartkWh1/1/2025 12:00:00 AM0.52StartkWh1/1/2025 12:15:00 AM0.48".toList

/-- The batch both scenarios should produce: values 0.52 and 0.48 exactly. -/
def scenarioBatch : List Sample :=
  [⟨.time ⟨⟨2025, 1, 1, 0, 0, 0⟩, HST⟩, .finite ⟨52, 2⟩⟩,
   ⟨.time ⟨⟨2025, 1, 1, 0, 15, 0⟩, HST⟩, .finite ⟨48, 2⟩⟩]

def sampleA1 : Sample := ⟨.time ⟨⟨2025, 1, 1, 0, 0, 0⟩, HST⟩, .finite ⟨52, 2⟩⟩

/-- Collapsed text whose single timestamp match has month `0`: it matches
`DT_RE` but `strptime` rejects it, and its span holds a number. -/
def cBadTs : List Char := "0/1/2025 1:00:00 AM 5".toList

/-- Strict CSV whose start cell is the NA token `NA` and whose value cell is
the NA token `nan`: both become missing values at read and pass through the
column conversions as NaT and NaN. -/
def cNan : List Char := "Start,kWh\nNA,nan".toList

/-- Strict CSV whose start cell is empty: it becomes a missing value at read
and `pd.to_datetime` passes it through as NaT, so the parse succeeds. -/
def cNaCell : List Char := "Start,kWh\n,0.5".toList

/-- Content no strategy can make sense of. -/
def cHello : List Char := "hello".toList

/-- A trace dropping two same-named files that both import successfully: the
second move overwrites the first file in `processed`. -/
def overwriteTrace : List Ev :=
  [.drop "a.csv" 0 scenarioA, .sweepFile "a.csv" true true true,
   .drop "a.csv" 1 scenarioA, .sweepFile "a.csv" true true true]

/-- A trace with distinct filenames: one import succeeds, one fails. -/
def distinctTrace : List Ev :=
  [.drop "a.csv" 0 scenarioA, .sweepFile "a.csv" true true true,
   .drop "b.txt" 1 cHello, .sweepFile "b.txt" true true true]

/-- The Sample a single data row yields, when both its cells parse (a missing
cell parses to NaT or NaN). -/
def rowSampleOf (t : Table) (r : List Cell) : Option Sample :=
  match parseTsCell (r.getD (colIdxOf t startName) none),
        parseNumCell (r.getD (colIdxOf t kwhName) none) with
  | .ok pt, .ok v => some ⟨pt, v⟩
  | _, _ => none

/-- The table the strict reader extracts from Scenario A. -/
def tableA : Table :=
  ⟨["Start".toList, "kWh".toList],
   [[some "1/1/2025 12:00:00 AM".toList, some "0.52".toList],
    [some "1/1/2025 12:15:00 AM".toList, some "0.48".toList]]⟩

def namesOf (l : List Entry) : List String := l.map (fun e => e.1)

/-- How many times the (filename, identity) pair occurs in the list. -/
def countPair (l : List (String × Nat)) (p : String × Nat) : Nat :=
  (l.filter (fun q => q == p)).length

end Heco

namespace Heco

/-! Helper lemmas shared by the claim theorems. -/

lemma collapsedRows_ok (l : List (TsFields × List Char))
    (h : ∀ fs ∈ l, numSearch (pyStrip fs.2) ≠ none → strptimeFields fs.1 ≠ none) :
    collapsedRows l = .ok (l.filterMap (fun fs =>
      (numSearch (pyStrip fs.2)).bind (fun q =>
        (strptimeFields fs.1).map (fun dt => ⟨.time ⟨dt, HST⟩, .finite q⟩)))) := by
  induction l with
  | nil => rfl
  | cons fsp rest ih =>
    obtain ⟨f, span⟩ := fsp
    have ihr := ih (fun fs hm => h fs (List.mem_cons_of_mem _ hm))
    simp only [collapsedRows, List.filterMap_cons]
    cases hn : numSearch (pyStrip span) with
    | none => simpa [hn] using ihr
    | some q =>
      have hst := h ⟨f, span⟩ (List.mem_cons_self _ _) (by rw [hn]; simp)
      cases hs : strptimeFields f with
      | none => exact absurd hs hst
      | some dt => rw [ihr]; simp [hn, hs]

lemma delimLoop_found (content : List Char) (seps : List Char) :
    ∀ (df : Option Table) (le : Option PErr) (sep : Char),
      seps.find? (goodSep content) = some sep →
      ∃ t, read_csv content sep = .ok t ∧ 2 ≤ t.header.length ∧
        (delimLoopAux content seps df le).1 = some t := by
  induction seps with
  | nil => intro df le sep hf; simp [List.find?] at hf
  | cons s ss ih =>
    intro df le sep hf
    cases hg : goodSep content s with
    | true =>
      rw [List.find?_cons_of_pos _ hg] at hf
      obtain rfl : s = sep := by simpa using hf
      unfold goodSep at hg
      cases hr : read_csv content s with
      | error e => rw [hr] at hg; simp at hg
      | ok t =>
        rw [hr] at hg
        have hlen : 2 ≤ t.header.length := by simpa using hg
        refine ⟨t, rfl, hlen, ?_⟩
        unfold delimLoopAux
        simp only [hr]
        rw [if_pos hlen]
    | false =>
      rw [List.find?_cons_of_neg _ (by simp [hg])] at hf
      unfold delimLoopAux
      cases hr : read_csv content s with
      | error e => simp only [hr]; exact ih none (some e) sep hf
      | ok t =>
        have hlen : ¬ 2 ≤ t.header.length := by
          unfold goodSep at hg; rw [hr] at hg; simpa using hg
        simp only [hr]
        rw [if_neg hlen]
        exact ih (some t) le sep hf

lemma traverseCells_ok_mem {β α : Type} (f : β → Except PErr α) :
    ∀ (cs : List β) (xs : List α), traverseCells f cs = .ok xs →
      ∀ x ∈ xs, ∃ c ∈ cs, f c = .ok x := by
  intro cs
  induction cs with
  | nil =>
    intro xs h x hx
    simp only [traverseCells] at h
    cases h
    simp at hx
  | cons c cs ih =>
    intro xs h x hx
    simp only [traverseCells] at h
    cases hc : f c with
    | error e => rw [hc] at h; cases h
    | ok y =>
      rw [hc] at h
      cases ht : traverseCells f cs with
      | error e => rw [ht] at h; cases h
      | ok ys =>
        rw [ht] at h
        cases h
        rcases List.mem_cons.mp hx with rfl | hx2
        · exact ⟨c, List.mem_cons_self _ _, hc⟩
        · obtain ⟨c2, hc2, hfc2⟩ := ih ys ht x hx2
          exact ⟨c2, List.mem_cons_of_mem _ hc2, hfc2⟩

lemma traverseCells_err_of_mem {β α : Type} (f : β → Except PErr α) :
    ∀ (cs : List β) (c : β) (e : PErr), c ∈ cs → f c = .error e →
      ∃ e2, traverseCells (α := α) f cs = .error e2 := by
  intro cs
  induction cs with
  | nil => intro c e hc; simp at hc
  | cons c0 cs ih =>
    intro c e hc he
    simp only [traverseCells]
    cases hc0 : f c0 with
    | error e0 => exact ⟨e0, rfl⟩
    | ok y =>
      rcases List.mem_cons.mp hc with rfl | hc2
      · rw [hc0] at he; cases he
      · obtain ⟨e2, ht⟩ := ih c e hc2 he
        rw [ht]
        exact ⟨e2, rfl⟩

lemma traverseCells_ok_of_all {β α : Type} (f : β → Except PErr α) :
    ∀ (cs : List β), (∀ c ∈ cs, ∃ x, f c = .ok x) →
      ∃ xs, traverseCells f cs = .ok xs := by
  intro cs
  induction cs with
  | nil => intro _; exact ⟨[], rfl⟩
  | cons c cs ih =>
    intro hall
    obtain ⟨x, hx⟩ := hall c (List.mem_cons_self _ _)
    obtain ⟨xs, hxs⟩ := ih (fun c2 hc2 => hall c2 (List.mem_cons_of_mem _ hc2))
    refine ⟨x :: xs, ?_⟩
    simp only [traverseCells, hx, hxs]

lemma zip_traverse_eq (si ki : Nat) :
    ∀ (rows : List (List Cell)) (dts : List PyTimestamp) (vals : List PyFloat),
      traverseCells parseTsCell (rows.map (fun r => r.getD si none)) = .ok dts →
      traverseCells parseNumCell (rows.map (fun r => r.getD ki none)) = .ok vals →
      (dts.zip vals).map (fun p => (⟨p.1, p.2⟩ : Sample)) =
        rows.filterMap (fun r =>
          match parseTsCell (r.getD si none), parseNumCell (r.getD ki none) with
          | .ok pt, .ok v => some ⟨pt, v⟩
          | _, _ => none) := by
  intro rows
  induction rows with
  | nil =>
    intro dts vals h1 h2
    simp only [List.map_nil, traverseCells] at h1 h2
    cases h1
    cases h2
    rfl
  | cons r rows ih =>
    intro dts vals h1 h2
    simp only [List.map_cons, traverseCells] at h1 h2
    cases hts : parseTsCell (r.getD si none) with
    | error e => rw [hts] at h1; cases h1
    | ok dt =>
      rw [hts] at h1
      cases ht1 : traverseCells parseTsCell (rows.map (fun r => r.getD si none)) with
      | error e => rw [ht1] at h1; cases h1
      | ok dts2 =>
        rw [ht1] at h1
        cases h1
        cases hnum : parseNumCell (r.getD ki none) with
        | error e => rw [hnum] at h2; cases h2
        | ok v =>
          rw [hnum] at h2
          cases ht2 : traverseCells parseNumCell (rows.map (fun r => r.getD ki none)) with
          | error e => rw [ht2] at h2; cases h2
          | ok vals2 =>
            rw [ht2] at h2
            cases h2
            simp only [List.zip_cons_cons, List.map_cons, List.filterMap_cons, hts, hnum]
            rw [ih dts2 vals2 ht1 ht2]

lemma filterMap_all_some_length {α β : Type} (p : α → Option β) :
    ∀ (l : List α), (∀ x ∈ l, p x ≠ none) → (l.filterMap p).length = l.length := by
  intro l
  induction l with
  | nil => intro _; rfl
  | cons x l ih =>
    intro hall
    cases hp : p x with
    | none => exact absurd hp (hall x (List.mem_cons_self _ _))
    | some y =>
      simp only [List.filterMap_cons, hp, List.length_cons]
      rw [ih (fun z hz => hall z (List.mem_cons_of_mem _ hz))]

lemma strptimeFields_valid (f : TsFields) (d : DateTime)
    (h : strptimeFields f = some d) : ValidDT d := by
  unfold strptimeFields at h
  by_cases hv : validFields f = true
  · rw [if_pos hv] at h
    cases h
    unfold validFields at hv
    simp only [Bool.and_eq_true, decide_eq_true_eq] at hv
    obtain ⟨⟨⟨⟨⟨⟨⟨⟨h1, h2⟩, h3⟩, h4⟩, h5⟩, h6⟩, h7⟩, h8⟩, h9⟩ := hv
    refine ⟨h1, h2, h3, h4, ?_, h7, h8, h9⟩
    show hour24 f.h12 f.pm ≤ 23
    unfold hour24
    split <;> split <;> omega
  · rw [if_neg hv] at h
    cases h

lemma collapsedRows_samples :
    ∀ (l : List (TsFields × List Char)) (rows : List Sample),
      collapsedRows l = .ok rows → ∀ s ∈ rows,
        (∃ t, s.ts = .time t ∧ t.zone = HST ∧ ValidDT t.dt) ∧
        ∃ v, s.kwh = .finite v := by
  intro l
  induction l with
  | nil =>
    intro rows h s hs
    simp only [collapsedRows] at h
    cases h
    simp at hs
  | cons fsp rest ih =>
    obtain ⟨f, span⟩ := fsp
    intro rows h s hs
    simp only [collapsedRows] at h
    cases hn : numSearch (pyStrip span) with
    | none => rw [hn] at h; exact ih rows h s hs
    | some q =>
      rw [hn] at h
      cases hst : strptimeFields f with
      | none => rw [hst] at h; cases h
      | some dt =>
        rw [hst] at h
        cases hrest : collapsedRows rest with
        | error e => rw [hrest] at h; cases h
        | ok tl =>
          rw [hrest] at h
          cases h
          rcases List.mem_cons.mp hs with rfl | hs2
          · exact ⟨⟨⟨dt, HST⟩, rfl, rfl, strptimeFields_valid f dt hst⟩, q, rfl⟩
          · exact ih tl hrest s hs2

lemma parseTsCell_valid (c : Cell) (pt : PyTimestamp)
    (h : parseTsCell c = .ok pt) :
    pt = .naT ∨ ∃ t, pt = .time t ∧ t.zone = HST ∧ ValidDT t.dt := by
  unfold parseTsCell at h
  cases c with
  | none =>
    cases h
    exact Or.inl rfl
  | some text =>
    dsimp only at h
    cases hl : lexTS true text with
    | none => rw [hl] at h; cases h
    | some p =>
      obtain ⟨f, rest⟩ := p
      rw [hl] at h
      cases rest with
      | nil =>
        dsimp only at h
        cases hst : strptimeFields f with
        | none => rw [hst] at h; cases h
        | some dt2 =>
          rw [hst] at h
          cases h
          exact Or.inr ⟨⟨dt2, HST⟩, rfl, rfl, strptimeFields_valid f dt2 hst⟩
      | cons a b => cases h

lemma parse_start_samples (content : List Char) (rows : List Sample)
    (hp : parse_start_kwh_csv content = .ok rows) :
    ∀ s ∈ rows, s.ts = .naT ∨
      ∃ t, s.ts = .time t ∧ t.zone = HST ∧ ValidDT t.dt := by
  unfold parse_start_kwh_csv at hp
  cases hd : detectDelim content with
  | mk o le =>
    rw [hd] at hp
    cases o with
    | none => cases hp
    | some t =>
      dsimp only at hp
      by_cases hs : startName ∈ normCols t ∧ kwhName ∈ normCols t
      · rw [if_pos hs] at hp
        cases hg1 : getCol t startName with
        | error e => rw [hg1] at hp; cases hp
        | ok scells =>
          rw [hg1] at hp
          dsimp only at hp
          cases h1 : traverseCells parseTsCell scells with
          | error e => rw [h1] at hp; cases hp
          | ok dts =>
            rw [h1] at hp
            dsimp only at hp
            cases hg2 : getCol t kwhName with
            | error e => rw [hg2] at hp; cases hp
            | ok kcells =>
              rw [hg2] at hp
              dsimp only at hp
              cases h2 : traverseCells parseNumCell kcells with
              | error e => rw [h2] at hp; cases hp
              | ok vals =>
                rw [h2] at hp
                dsimp only at hp
                cases hp
                intro s hs2
                obtain ⟨p, hpz, rfl⟩ := List.mem_map.mp hs2
                obtain ⟨a, b⟩ := p
                obtain ⟨ha, _⟩ := List.of_mem_zip hpz
                obtain ⟨c, _, hc⟩ := traverseCells_ok_mem parseTsCell scells dts h1 a ha
                exact parseTsCell_valid c a hc
      · rw [if_neg hs] at hp
        cases hp

lemma entryPairs_fst (l : List Entry) : (entryPairs l).map Prod.fst = namesOf l := by
  simp only [entryPairs, namesOf, List.map_map]
  rfl

lemma statePairs_fst (s : FsState) :
    (statePairs s).map Prod.fst =
      namesOf s.incoming ++ namesOf s.processed ++ namesOf s.failed := by
  simp only [statePairs, List.map_append, entryPairs_fst]

lemma removeN_of_not_mem (n : String) (l : List Entry) (h : n ∉ namesOf l) :
    removeN n l = l := by
  unfold removeN
  apply List.filter_eq_self.mpr
  intro e he
  have : e.1 ≠ n := by
    intro heq
    exact h (heq ▸ List.mem_map_of_mem (fun e => e.1) he)
  simpa [bne_iff_ne] using this

lemma lookupN_mem_names (n : String) :
    ∀ (l : List Entry) (v : Nat × List Char), lookupN n l = some v → n ∈ namesOf l := by
  intro l
  induction l with
  | nil => intro v h; cases h
  | cons e rest ih =>
    obtain ⟨m, w⟩ := e
    intro v h
    simp only [lookupN] at h
    by_cases hm : m = n
    · subst hm; exact List.mem_cons_self _ _
    · rw [if_neg hm] at h
      exact List.mem_cons_of_mem _ (ih v h)

lemma perm_lookup_removeN (n : String) :
    ∀ (l : List Entry) (v : Nat × List Char), (namesOf l).Nodup →
      lookupN n l = some v → l.Perm ((n, v) :: removeN n l) := by
  intro l
  induction l with
  | nil => intro v _ h; cases h
  | cons e rest ih =>
    obtain ⟨m, w⟩ := e
    intro v hnd h
    simp only [namesOf, List.map_cons, List.nodup_cons] at hnd
    obtain ⟨hm_notin, hnd2⟩ := hnd
    simp only [lookupN] at h
    by_cases hm : m = n
    · subst hm
      rw [if_pos rfl] at h
      cases h
      have hrest : removeN m ((m, w) :: rest) = rest := by
        unfold removeN
        rw [List.filter_cons_of_neg (by simp)]
        exact removeN_of_not_mem m rest (by simpa [namesOf] using hm_notin)
      rw [hrest]
    · rw [if_neg hm] at h
      have hIH := ih v (by simpa [namesOf] using hnd2) h
      have hkeep : removeN n ((m, w) :: rest) = (m, w) :: removeN n rest := by
        unfold removeN
        rw [List.filter_cons_of_pos (by simpa [bne_iff_ne] using hm)]
      rw [hkeep]
      exact (hIH.cons _).trans (List.Perm.swap _ _ _)

lemma move_perm (A : List (String × Nat)) (x : String × Nat) (B C : List (String × Nat)) :
    ((x :: A) ++ B ++ C).Perm (A ++ (x :: B) ++ C) := by
  simp only [List.cons_append, List.append_assoc]
  exact List.perm_middle.symm

lemma move_perm2 (A : List (String × Nat)) (x : String × Nat) (B C : List (String × Nat)) :
    ((x :: A) ++ B ++ C).Perm (A ++ B ++ (x :: C)) := by
  simp only [List.cons_append, List.append_assoc]
  exact List.perm_middle.symm.trans (List.Perm.append_left A List.perm_middle.symm)

lemma run_perm_aux :
    ∀ (evs : List Ev) (s : FsState) (acc : List (String × Nat)),
      (statePairs s).Perm acc →
      ((acc ++ dropPairs evs).map Prod.fst).Nodup →
      (statePairs (evs.foldl step s)).Perm (acc ++ dropPairs evs) := by
  intro evs
  induction evs with
  | nil =>
    intro s acc hperm _
    simpa [dropPairs] using hperm
  | cons e evs ih =>
    intro s acc hperm hnd
    rw [List.foldl_cons]
    cases e with
    | drop n id c =>
      have hdp : dropPairs (Ev.drop n id c :: evs) = (n, id) :: dropPairs evs := rfl
      rw [hdp] at hnd ⊢
      have hnotacc : n ∉ acc.map Prod.fst := by
        rw [List.map_append] at hnd
        have hdisj := (List.nodup_append.mp hnd).2.2
        intro hmem
        exact hdisj hmem (by simp)
      have hnotinc : n ∉ namesOf s.incoming := by
        intro hmem
        apply hnotacc
        apply (hperm.map Prod.fst).mem_iff.mp
        rw [statePairs_fst]
        simp [hmem]
      have hstep : statePairs (step s (Ev.drop n id c)) = (n, id) :: statePairs s := by
        show statePairs ⟨insertOv n (id, c) s.incoming, s.processed, s.failed⟩ = _
        simp only [statePairs, insertOv, removeN_of_not_mem n s.incoming hnotinc,
          entryPairs, List.map_cons]
        rfl
      have hperm2 : (statePairs (step s (Ev.drop n id c))).Perm (acc ++ [(n, id)]) := by
        rw [hstep]
        exact (hperm.cons _).trans (List.perm_append_singleton _ _).symm
      have hnd2 : (((acc ++ [(n, id)]) ++ dropPairs evs).map Prod.fst).Nodup := by
        rw [List.append_assoc, List.singleton_append]
        exact hnd
      have hres := ih (step s (Ev.drop n id c)) (acc ++ [(n, id)]) hperm2 hnd2
      rw [List.append_assoc, List.singleton_append] at hres
      exact hres
    | sweepFile n sOk mvP mvF =>
      have hdp : dropPairs (Ev.sweepFile n sOk mvP mvF :: evs) = dropPairs evs := rfl
      rw [hdp] at hnd ⊢
      cases hl : lookupN n s.incoming with
      | none =>
        have hstep : step s (Ev.sweepFile n sOk mvP mvF) = s := by
          simp only [step, hl]
        rw [hstep]
        exact ih s acc hperm hnd
      | some vc =>
        obtain ⟨id, c⟩ := vc
        have hndstate : ((statePairs s).map Prod.fst).Nodup := by
          refine ((hperm.map Prod.fst).nodup_iff).mpr ?_
          rw [List.map_append] at hnd
          exact (List.nodup_append.mp hnd).1
        rw [statePairs_fst] at hndstate
        have hnd_inc : (namesOf s.incoming).Nodup :=
          (List.nodup_append.mp ((List.nodup_append.mp hndstate).1)).1
        have hmem_inc : n ∈ namesOf s.incoming := lookupN_mem_names n s.incoming _ hl
        have hnot_proc : n ∉ namesOf s.processed := fun hmem =>
          ((List.nodup_append.mp ((List.nodup_append.mp hndstate).1)).2.2) hmem_inc hmem
        have hnot_failed : n ∉ namesOf s.failed := fun hmem =>
          ((List.nodup_append.mp hndstate).2.2) (by simp [hmem_inc]) hmem
        have hEP : (entryPairs s.incoming).Perm
            ((n, id) :: entryPairs (removeN n s.incoming)) := by
          have hp := (perm_lookup_removeN n s.incoming (id, c) hnd_inc hl).map
            (fun e => (e.1, e.2.1))
          simpa [entryPairs] using hp
        cases hdisp : processOne (sinkOf sOk) mvP mvF c with
        | toProcessed m =>
          have hstep : step s (Ev.sweepFile n sOk mvP mvF) =
              ⟨removeN n s.incoming, insertOv n (id, c) s.processed, s.failed⟩ := by
            simp only [step, hl, hdisp]
          rw [hstep]
          have hkey : statePairs ⟨removeN n s.incoming,
              insertOv n (id, c) s.processed, s.failed⟩ =
              entryPairs (removeN n s.incoming) ++
                ((n, id) :: entryPairs s.processed) ++ entryPairs s.failed := by
            simp only [statePairs, insertOv, removeN_of_not_mem n s.processed hnot_proc,
              entryPairs, List.map_cons]
          have hperm2 : (statePairs ⟨removeN n s.incoming,
              insertOv n (id, c) s.processed, s.failed⟩).Perm acc := by
            rw [hkey]
            refine ((move_perm _ _ _ _).symm.trans ?_).trans hperm
            show (((n, id) :: entryPairs (removeN n s.incoming)) ++
              entryPairs s.processed ++ entryPairs s.failed).Perm (statePairs s)
            exact (hEP.symm.append_right _).append_right _
          exact ih _ acc hperm2 hnd
        | toFailed =>
          have hstep : step s (Ev.sweepFile n sOk mvP mvF) =
              ⟨removeN n s.incoming, s.processed, insertOv n (id, c) s.failed⟩ := by
            simp only [step, hl, hdisp]
          rw [hstep]
          have hkey : statePairs ⟨removeN n s.incoming,
              s.processed, insertOv n (id, c) s.failed⟩ =
              entryPairs (removeN n s.incoming) ++ entryPairs s.processed ++
                ((n, id) :: entryPairs s.failed) := by
            simp only [statePairs, insertOv, removeN_of_not_mem n s.failed hnot_failed,
              entryPairs, List.map_cons]
          have hperm2 : (statePairs ⟨removeN n s.incoming,
              s.processed, insertOv n (id, c) s.failed⟩).Perm acc := by
            rw [hkey]
            refine ((move_perm2 _ _ _ _).symm.trans ?_).trans hperm
            show (((n, id) :: entryPairs (removeN n s.incoming)) ++
              entryPairs s.processed ++ entryPairs s.failed).Perm (statePairs s)
            exact (hEP.symm.append_right _).append_right _
          exact ih _ acc hperm2 hnd
        | leftInPlace =>
          have hstep : step s (Ev.sweepFile n sOk mvP mvF) = s := by
            simp only [step, hl, hdisp]
          rw [hstep]
          exact ih s acc hperm hnd

lemma countPair_perm (l1 l2 : List (String × Nat)) (p : String × Nat)
    (h : l1.Perm l2) : countPair l1 p = countPair l2 p :=
  (h.filter _).length_eq

lemma countPair_eq_one (p : String × Nat) :
    ∀ (l : List (String × Nat)), l.Nodup → p ∈ l → countPair l p = 1 := by
  intro l
  induction l with
  | nil => intro _ hm; cases hm
  | cons a l ih =>
    intro hnd hm
    rw [List.nodup_cons] at hnd
    rcases List.mem_cons.mp hm with rfl | hm2
    · unfold countPair
      rw [List.filter_cons_of_pos (by simp)]
      have hz : l.filter (fun q => q == p) = [] := by
        rw [List.filter_eq_nil_iff]
        intro b hb
        simp only [beq_iff_eq]
        intro hbp
        exact hnd.1 (hbp ▸ hb)
      rw [hz]
      rfl
    · have ha : a ≠ p := by
        intro hap
        exact hnd.1 (hap ▸ hm2)
      unfold countPair
      rw [List.filter_cons_of_neg (by simp [ha])]
      exact ih hnd.2 hm2

end Heco

namespace Heco

/-! The claim theorems. -/

/-- C1: `parse_file` fails only if both strategies fail to produce a nonempty
batch — a strict success is returned as is; when the strict parser errors, the
recovery parser runs on the same raw content, an empty recovery batch
re-raises the original strict error, a nonempty recovery batch is returned
with the strict failure suppressed, and any failure of `parse_file` implies
the strict parser failed and recovery produced no nonempty batch. -/
theorem C1_parser_composition (content : List Char) :
    (∀ rows, parse_start_kwh_csv content = .ok rows → parse_file content = .ok rows) ∧
    (∀ e, parse_start_kwh_csv content = .error e → parse_collapsed_text content = .ok [] →
      parse_file content = .error e) ∧
    (∀ e r rs, parse_start_kwh_csv content = .error e →
      parse_collapsed_text content = .ok (r :: rs) → parse_file content = .ok (r :: rs)) ∧
    (∀ e, parse_file content = .error e →
      ∃ e1, parse_start_kwh_csv content = .error e1 ∧
        (parse_collapsed_text content = .ok [] ∨
          ∃ e2, parse_collapsed_text content = .error e2)) := by
  unfold parse_file
  cases hs : parse_start_kwh_csv content with
  | ok rows => simp
  | error e =>
    cases hc : parse_collapsed_text content with
    | ok l =>
      cases l with
      | nil => simp
      | cons r rs => simp
    | error e2 => simp

/-- C1 witness: on content neither strategy can parse, the strict schema error
is re-raised. -/
theorem C1_parser_composition_witness :
    parse_file cHello = .error (.schemaMismatch [['h', 'e', 'l', 'l', 'o']]) :=
  (C1_parser_composition cHello).2.1 _ (by decide) (by decide)

/-- C2 counterexample: the text `0/1/2025 1:00:00 AM 5` has exactly one
timestamp-grammar match (month `0`) whose span contains the number `5`, yet
the recovery parser raises a timestamp error instead of emitting exactly one
Sample for it. -/
theorem C2_counterexample :
    parseMatches (cleanText cBadTs) = [(⟨0, 1, 2025, 1, 0, 0, false⟩, [' ', '5'])] ∧
    numSearch (pyStrip [' ', '5']) = some ⟨5, 0⟩ ∧
    parse_collapsed_text cBadTs = .error .timestampFormat :=
  ⟨by decide, by decide, by decide⟩

/-- C2 (amended): provided every timestamp-grammar match whose span contains a
decimal number carries calendar-valid fields, the recovery parser emits
exactly one Sample per such match, in scan order, valued at the first number
of its span, and a match with no number in its span contributes zero Samples
without an error; a calendar-invalid match whose span holds a number makes
the parse raise instead. -/
theorem C2_recovery_per_match (text : List Char)
    (h : ∀ fs ∈ parseMatches (cleanText text),
      numSearch (pyStrip fs.2) ≠ none → strptimeFields fs.1 ≠ none) :
    parse_collapsed_text text = .ok (recoveredSamples text) :=
  collapsedRows_ok _ h

/-- C2 witness: the collapsed Scenario B text satisfies the hypothesis and
parses to its declaratively described sample list. -/
theorem C2_recovery_per_match_witness :
    parse_collapsed_text scenarioB = .ok (recoveredSamples scenarioB) :=
  C2_recovery_per_match scenarioB (by decide)

/-- C3 counterexample: dropping two successfully-imported files under the same
name makes the second move overwrite the first in `processed`; the first file
(identity 0), though once placed in incoming, is afterwards present in none of
the three locations. -/
theorem C3_counterexample :
    (Ev.drop "a.csv" 0 scenarioA) ∈ overwriteTrace ∧
    hasId (run overwriteTrace).incoming 0 = false ∧
    hasId (run overwriteTrace).processed 0 = false ∧
    hasId (run overwriteTrace).failed 0 = false :=
  ⟨by decide, by decide, by decide, by decide⟩

/-- C3 (amended): provided no two files ever dropped into incoming share a
filename, after any trace of drops and sweep steps every dropped file is
present in exactly one of incoming, processed, failed — never absent from all
three and never duplicated. -/
theorem C3_lifecycle_invariant (evs : List Ev)
    (h : ((dropPairs evs).map Prod.fst).Nodup) :
    ∀ p ∈ dropPairs evs, countPair (statePairs (run evs)) p = 1 := by
  have hperm : (statePairs (run evs)).Perm (dropPairs evs) := by
    have hrun := run_perm_aux evs initState [] (by rfl) (by simpa using h)
    simpa using hrun
  intro p hp
  rw [countPair_perm _ _ p hperm]
  exact countPair_eq_one p _ (List.Nodup.of_map _ h) hp

/-- C3 witness: in a trace with distinct filenames where one import succeeds
and one fails, the successfully imported file is present exactly once. -/
theorem C3_lifecycle_invariant_witness :
    countPair (statePairs (run distinctTrace)) ("a.csv", 0) = 1 :=
  C3_lifecycle_invariant distinctTrace (by decide) ("a.csv", 0) (by decide)

/-- C4 counterexample: on Scenario A both the parse and the sink write
succeed, yet when the relocation to `processed` itself fails the exception
handler routes the file to `failed` — so relocation to processed is not
exactly characterised by parse-and-write success. -/
theorem C4_counterexample :
    parse_file scenarioA = .ok scenarioBatch ∧
    write_to_influx (sinkOf true) scenarioBatch = .ok 2 ∧
    processOne (sinkOf true) false true scenarioA = .toFailed :=
  ⟨by decide, by decide, by decide⟩

/-- C4 (amended): a file is relocated to processed exactly when the parse, the
write, and the relocation to processed all succeed; it is relocated to failed
when the failed-move works and either the parse or write failed or the
processed-move failed; it is left in place when the failed-move also fails;
and the sweep loop continues past a file whose relocations fail. -/
theorem C4_disposition (sink : List Point → Except PErr Unit) (mvP mvF : Bool)
    (content : List Char) :
    (∀ n, processOne sink mvP mvF content = .toProcessed n ↔
      mvP = true ∧ ∃ rows, parse_file content = .ok rows ∧
        write_to_influx sink rows = .ok n) ∧
    (processOne sink mvP mvF content = .toFailed ↔
      mvF = true ∧ (¬ PipeSuccess sink content ∨ mvP = false)) ∧
    (processOne sink mvP mvF content = .leftInPlace ↔
      mvF = false ∧ (¬ PipeSuccess sink content ∨ mvP = false)) ∧
    (∀ (s : FsState) (nm : String) (sOk mvP2 : Bool) (evs : List Ev),
      List.foldl step s (.sweepFile nm sOk mvP2 false :: evs) =
        List.foldl step (step s (.sweepFile nm sOk mvP2 false)) evs) := by
  refine ⟨?_, ?_, ?_, fun s nm sOk mvP2 evs => rfl⟩ <;>
    simp only [processOne, PipeSuccess] <;>
    cases hpf : parse_file content with
  | ok rows =>
    cases hw : write_to_influx sink rows with
    | ok m => cases mvP <;> cases mvF <;> simp [hpf, hw]
    | error e2 => cases mvP <;> cases mvF <;> simp [hpf, hw]
  | error e => cases mvP <;> cases mvF <;> simp [hpf]

/-- C4 witness: with all operations succeeding, Scenario A lands in processed
with its two points counted. -/
theorem C4_disposition_witness :
    processOne (sinkOf true) true true scenarioA = .toProcessed 2 :=
  ((C4_disposition (sinkOf true) true true scenarioA).1 2).mpr
    ⟨rfl, scenarioBatch, by decide, by decide⟩

/-- C5: a parse that yields zero Samples counts as success — the write call is
skipped (it returns count 0 against every sink, including one that rejects
every batch) and the file is moved to processed with 0 points reported. -/
theorem C5_empty_batch_success (content : List Char)
    (h : parse_file content = .ok []) :
    (∀ sink, write_to_influx sink [] = .ok 0) ∧
    (∀ sink mvF, processOne sink true mvF content = .toProcessed 0) := by
  refine ⟨fun sink => rfl, fun sink mvF => ?_⟩
  unfold processOne
  rw [h]
  rfl

/-- C5 witness: a header-only CSV parses to the empty batch and is moved to
processed even against an always-failing sink. -/
theorem C5_empty_batch_success_witness :
    parse_file "Start,kWh".toList = .ok [] ∧
    processOne (sinkOf false) true false "Start,kWh".toList = .toProcessed 0 :=
  ⟨by decide, (C5_empty_batch_success _ (by decide)).2 _ _⟩

/-- C6 counterexample: in `Start,kWh` followed by the row `,0.5` the start
cell is empty, so it cannot match the fixed calendar format — yet the parse
does not fail: the empty field becomes a missing value at read,
`pd.to_datetime` passes it through as NaT, and the parser returns a one-sample
batch (NaT, 0.5) instead of failing as the all-or-nothing claim predicts. -/
theorem C6_counterexample :
    read_csv cNaCell ',' =
      .ok ⟨["Start".toList, "kWh".toList], [[none, some "0.5".toList]]⟩ ∧
    parse_start_kwh_csv cNaCell = .ok [⟨.naT, .finite ⟨5, 1⟩⟩] :=
  ⟨by decide, by decide⟩

/-- C6 (amended): on an input interpreted as a table with uniquely resolvable
`start` and `kwh` columns, missing cells (empty fields, NA tokens, and fields
absent from short rows) are passed through as NaT timestamps and NaN values
without failing; if any row has a present start cell failing the fixed
calendar format or a present value cell failing numeric parsing, the whole
parse fails with no partial batch, and otherwise the result holds exactly one
Sample per data row, in row order. -/
theorem C6_strict_all_or_nothing (content : List Char) (t : Table) (le : Option PErr)
    (hdet : detectDelim content = (some t, le))
    (hschema : startName ∈ normCols t ∧ kwhName ∈ normCols t)
    (hsu : countOcc startName (normCols t) = 1)
    (hku : countOcc kwhName (normCols t) = 1) :
    ((∃ r ∈ t.rows, rowSampleOf t r = none) →
      ∃ e, parse_start_kwh_csv content = .error e) ∧
    ((∀ r ∈ t.rows, rowSampleOf t r ≠ none) →
      parse_start_kwh_csv content = .ok (t.rows.filterMap (rowSampleOf t)) ∧
      (t.rows.filterMap (rowSampleOf t)).length = t.rows.length) := by
  have hgs : getCol t startName = .ok (colCells t startName) := by
    unfold getCol; rw [if_pos hsu]
  have hgk : getCol t kwhName = .ok (colCells t kwhName) := by
    unfold getCol; rw [if_pos hku]
  have hcc : ∀ name r, r ∈ t.rows → r.getD (colIdxOf t name) none ∈ colCells t name := by
    intro name r hr
    exact List.mem_map_of_mem _ hr
  constructor
  · rintro ⟨r, hr, hnone⟩
    unfold parse_start_kwh_csv
    simp only [hdet]
    rw [if_pos hschema]
    simp only [hgs]
    unfold rowSampleOf at hnone
    cases hts : parseTsCell (r.getD (colIdxOf t startName) none) with
    | error e =>
      obtain ⟨e2, htrav⟩ :=
        traverseCells_err_of_mem parseTsCell (colCells t startName) _ e
          (hcc startName r hr) hts
      rw [htrav]
      exact ⟨e2, rfl⟩
    | ok dt =>
      rw [hts] at hnone
      cases hnum : parseNumCell (r.getD (colIdxOf t kwhName) none) with
      | error e =>
        cases htrav : traverseCells parseTsCell (colCells t startName) with
        | error e3 => exact ⟨e3, rfl⟩
        | ok dts =>
          simp only [hgk]
          obtain ⟨e2, htrav2⟩ :=
            traverseCells_err_of_mem parseNumCell (colCells t kwhName) _ e
              (hcc kwhName r hr) hnum
          rw [htrav2]
          exact ⟨e2, rfl⟩
      | ok v => rw [hnum] at hnone; cases hnone
  · intro hall
    have hallts : ∀ c ∈ colCells t startName, ∃ pt, parseTsCell c = .ok pt := by
      intro c hc
      obtain ⟨r, hr, rfl⟩ := List.mem_map.mp hc
      have hro := hall r hr
      unfold rowSampleOf at hro
      cases hts : parseTsCell (r.getD (colIdxOf t startName) none) with
      | error e => rw [hts] at hro; exact absurd rfl hro
      | ok pt => exact ⟨pt, rfl⟩
    have hallnum : ∀ c ∈ colCells t kwhName, ∃ v, parseNumCell c = .ok v := by
      intro c hc
      obtain ⟨r, hr, rfl⟩ := List.mem_map.mp hc
      have hro := hall r hr
      unfold rowSampleOf at hro
      cases hts : parseTsCell (r.getD (colIdxOf t startName) none) with
      | error e => rw [hts] at hro; exact absurd rfl hro
      | ok pt =>
        rw [hts] at hro
        cases hnum : parseNumCell (r.getD (colIdxOf t kwhName) none) with
        | error e => rw [hnum] at hro; exact absurd rfl hro
        | ok v => exact ⟨v, rfl⟩
    obtain ⟨dts, h1⟩ := traverseCells_ok_of_all parseTsCell _ hallts
    obtain ⟨vals, h2⟩ := traverseCells_ok_of_all parseNumCell _ hallnum
    unfold parse_start_kwh_csv
    simp only [hdet]
    rw [if_pos hschema]
    simp only [hgs, h1, hgk, h2]
    refine ⟨?_, filterMap_all_some_length _ _ hall⟩
    rw [zip_traverse_eq (colIdxOf t startName) (colIdxOf t kwhName) t.rows dts vals h1 h2]
    rfl

/-- C6 witness: Scenario A resolves to its concrete table and yields one
Sample per data row, in row order. -/
theorem C6_strict_all_or_nothing_witness :
    parse_start_kwh_csv scenarioA = .ok (tableA.rows.filterMap (rowSampleOf tableA)) ∧
    (tableA.rows.filterMap (rowSampleOf tableA)).length = tableA.rows.length :=
  (C6_strict_all_or_nothing scenarioA tableA none (by decide) (by decide)
    (by decide) (by decide)).2 (by decide)

/-- C7: the delimiter loop tries comma, tab, semicolon in that fixed order and
accepts the first delimiter whose read yields a table of at least two
columns. -/
theorem C7_delimiter_priority (content : List Char) (sep : Char)
    (h : [',', '\t', ';'].find? (goodSep content) = some sep) :
    ∃ t, read_csv content sep = .ok t ∧ 2 ≤ t.header.length ∧
      (detectDelim content).1 = some t :=
  delimLoop_found content [',', '\t', ';'] none none sep h

/-- C7 witness: Scenario A is accepted at the comma, the first delimiter in
the priority order. -/
theorem C7_delimiter_priority_witness :
    ∃ t, read_csv scenarioA ',' = .ok t ∧ 2 ≤ t.header.length ∧
      (detectDelim scenarioA).1 = some t :=
  C7_delimiter_priority scenarioA ',' (by decide)

/-- C8 counterexample: the cells `NA` and `nan` become missing values at
read, and the column conversions pass them through — the strict parser emits
a Sample whose timestamp is NaT and whose value is NaN, contradicting the
claim that every Sample carries a format-parsed timestamp and a finite
value. -/
theorem C8_counterexample :
    parse_start_kwh_csv cNan = .ok [⟨.naT, .nan⟩] := by
  decide

/-- C8 (amended): every Sample emitted by the recovery parser carries a
calendar-valid timestamp stamped with the fixed Hawaii zone and a finite
decimal value; a strict-parser Sample carries either the missing timestamp
NaT (when the start cell was an NA field) or a calendar-valid timestamp
stamped with the fixed Hawaii zone, and its value may be NaN or infinite
(NA fields and the special numeric tokens); neither parser emits a Sample
missing either field. -/
theorem C8_sample_invariant (content : List Char) :
    (∀ rows, parse_collapsed_text content = .ok rows → ∀ s ∈ rows,
      (∃ t, s.ts = PyTimestamp.time t ∧ t.zone = HST ∧ ValidDT t.dt) ∧
      ∃ v, s.kwh = PyFloat.finite v) ∧
    (∀ rows, parse_start_kwh_csv content = .ok rows → ∀ s ∈ rows,
      s.ts = PyTimestamp.naT ∨
      ∃ t, s.ts = PyTimestamp.time t ∧ t.zone = HST ∧ ValidDT t.dt) := by
  constructor
  · intro rows h
    exact collapsedRows_samples _ rows h
  · intro rows h
    exact parse_start_samples content rows h

/-- C8 witness: the first Scenario B sample carries a concrete Hawaii-zone
calendar-valid timestamp and a finite value. -/
theorem C8_sample_invariant_witness :
    (∃ t, sampleA1.ts = PyTimestamp.time t ∧ t.zone = HST ∧ ValidDT t.dt) ∧
      ∃ v, sampleA1.kwh = PyFloat.finite v :=
  (C8_sample_invariant scenarioB).1 scenarioBatch (by decide) sampleA1 (by decide)

/-- C9: the strict parse of the well-formed Scenario A CSV and the recovery
parse of the collapsed Scenario B text yield the identical two-sample batch:
(2025-01-01T00:00:00 HST, 0.52) then (2025-01-01T00:15:00 HST, 0.48). -/
theorem C9_scenario_equivalence :
    parse_start_kwh_csv scenarioA = .ok scenarioBatch ∧
    parse_collapsed_text scenarioB = .ok scenarioBatch := by
  constructor <;> decide

end Heco
